import Mathlib

/-!
Verification of the Catalog-Extract page-processing pipeline.

This file gives a shallow embedding, in Lean 4, of the pipeline core of the
Catalog-Extract repository: the field extractor (`src/extractor.py`), the
validator (`src/validator.py`), the position-based table reconstructor
(`src/table_detector.py`), the multi-pass controller
(`src/multi_pass_processor.py`) and the consolidation routine
(`src/api.py`).  Python floats are modelled as exact rationals (every
constant appearing in the code is decimal, so no rounding behaviour is
relevant to the stated properties), Python `None` as `Option`, machine
integers as `Int`/`Nat`, and Python dictionaries (which preserve key
insertion order) as association lists updated by `dictUpsert` below.
-/

namespace CatalogExtract

/-- Truthiness of an optional string in Python: `None` and `""` are falsy. -/
def pyTruthyStr : Option String → Bool
  | none => false
  | some s => !(s == "")

/-- Truthiness of an optional number in Python: `None` and `0` are falsy. -/
def pyTruthyQ : Option ℚ → Bool
  | none => false
  | some v => !(v == 0)

/-- Python `str.isupper`: at least one cased character and no lowercase one
(ASCII fragment, which is all the pipeline produces). -/
def pyIsUpper (s : String) : Bool :=
  s.toList.any Char.isUpper && !(s.toList.any Char.isLower)

/-- Python `str.isalpha` (ASCII fragment): nonempty and all letters. -/
def pyIsAlpha (s : String) : Bool :=
  !(s == "") && s.toList.all Char.isAlpha

/-- Characters of Python's `\s` class (ASCII fragment). -/
def isPySpace (c : Char) : Bool :=
  c == ' ' || c == '\t' || c == '\n' || c == '\r' ||
  c == Char.ofNat 11 || c == Char.ofNat 12

/-- `ExtractedItem` dataclass from `src/extractor.py` (the in-memory
candidate produced by the field extractor).  The bounding box tuple is
modelled as four integers. -/
structure ExtractedItem where
  brand_code : Option String
  part_number : Option String
  price_type : Option String
  price_value : Option ℚ
  currency : String
  page : Int
  confidence : ℚ
  raw_text : String
  bbox : Option (Int × Int × Int × Int)
deriving DecidableEq, Inhabited

/-! ## Validator (`src/validator.py`, class `DataValidator`) -/

/-- `DataValidator._validate_part_number`: structural plausibility score of a
part-number string, translated statement by statement from the source
(sequential `score` updates, then clamping to `[0, 100]`). -/
def validate_part_number (pn : String) : ℚ :=
  let score : ℚ := 50
  let score := if 5 ≤ pn.length ∧ pn.length ≤ 15 then score + 20
               else if 15 < pn.length then score - 10 else score
  let has_letters := pn.toList.any Char.isAlpha
  let has_numbers := pn.toList.any Char.isDigit
  let score := if has_letters && has_numbers then score + 20
               else if has_numbers then score + 10 else score
  let score := if pn.toList.contains '-' || pn.toList.contains ' ' then score + 10 else score
  let special_chars :=
    (pn.toList.filter (fun c => !(c.isAlpha || c.isDigit || c == '-' || isPySpace c))).length
  let score := if 2 < special_chars then score - 20 else score
  max 0 (min 100 score)

/-- Whether a rational is divisible by `d` in the sense of Python's
`price % d == 0` for the floats this pipeline produces. -/
def qDivisibleBy (q : ℚ) (d : ℤ) : Bool :=
  q.den == 1 && q.num % d == 0

/-- `DataValidator._validate_price`, translated statement by statement. -/
def validate_price (price : ℚ) : ℚ :=
  let score : ℚ := 50
  let score := if 1/10 ≤ price ∧ price ≤ 10000 then score + 30
               else if 10000 < price ∧ price ≤ 100000 then score + 15
               else score - 20
  let score := if price.den ≠ 1 then score + 20 else score
  let score := if qDivisibleBy price 10 ∧ 10 < price ∧ price < 1000 then score - 10 else score
  max 0 (min 100 score)

/-- `DataValidator._validate_brand_code`, translated statement by statement. -/
def validate_brand_code (bc : String) : ℚ :=
  let score : ℚ := 50
  let score := if 2 ≤ bc.length ∧ bc.length ≤ 4 then score + 30 else score - 20
  let score := if pyIsUpper bc then score + 20 else score
  let score := if pyIsAlpha bc then score + 10 else score - 20
  max 0 (min 100 score)

/-- `DataValidator._check_completeness`: fraction of the four optional data
fields that are present (truthy), times 100. -/
def check_completeness (item : ExtractedItem) : ℚ :=
  let fields_present : ℚ :=
    (if pyTruthyStr item.brand_code then 1 else 0) +
    (if pyTruthyStr item.part_number then 1 else 0) +
    (if item.price_value ≠ none then 1 else 0) +
    (if pyTruthyStr item.price_type then 1 else 0)
  (fields_present / 4) * 100

/-- `DataValidator._calculate_confidence`: the inbound confidence weighted
0.4 against the mean of the applicable structural sub-scores weighted 0.6.
The completeness score is always appended, so the list of scores always has
at least two entries and the single-score branch of the source is only a
safeguard. -/
def calculate_confidence (item : ExtractedItem) : ℚ :=
  let scores : List ℚ :=
    [item.confidence] ++
    (match item.part_number with
     | some pn => if pyTruthyStr item.part_number then [validate_part_number pn] else []
     | none => []) ++
    (match item.price_value with
     | some p => [validate_price p]
     | none => []) ++
    (match item.brand_code with
     | some bc => if pyTruthyStr item.brand_code then [validate_brand_code bc] else []
     | none => []) ++
    [check_completeness item]
  if 1 < scores.length then
    item.confidence * (4/10) + (scores.tail.sum / scores.tail.length) * (6/10)
  else
    item.confidence

/-- `DataValidator.validate_items` with threshold `min_confidence`: rescore
every item and keep those at or above the threshold. -/
def validate_items (min_confidence : ℚ) (items : List ExtractedItem) : List ExtractedItem :=
  items.filterMap (fun item =>
    let confidence := calculate_confidence item
    if min_confidence ≤ confidence then some { item with confidence := confidence } else none)

/-! ## Ordered dictionaries

Python dictionaries preserve key insertion order.  Every grouping loop in the
pipeline (`deduplicate_items`, `_find_low_confidence_pages`, the consolidation
grouping in `api.py`) builds one by repeated upsert, so we model that single
primitive once. -/

/-- Upsert into an association list, preserving key insertion order: update
the existing entry for `k` with `f`, or append `(k, init)` at the end. -/
def dictUpsert {K β : Type} [DecidableEq K] (k : K) (f : β → β) (init : β) :
    List (K × β) → List (K × β)
  | [] => [(k, init)]
  | (k', v) :: rest =>
    if k' = k then (k', f v) :: rest else (k', v) :: dictUpsert k f init rest

/-- The keys of a list, with later duplicates dropped (first-seen order).
This is the key order of a Python dict filled from the list, and also the
behaviour of the seen-set loop in `DataExtractor._extract_pattern`. -/
def firstKeys {K : Type} [DecidableEq K] (ks : List K) : List K :=
  ks.foldl (fun acc k => if k ∈ acc then acc else acc ++ [k]) []

/-- Generic grouping fold: process `l` left to right, upserting each element
into an ordered dictionary keyed by `key`, seeding a group with `init` and
extending it with `upd`. -/
def dictFold {α K β : Type} [DecidableEq K] (key : α → K) (upd : β → α → β)
    (init : α → β) (l : List α) : List (K × β) :=
  l.foldl (fun acc a => dictUpsert (key a) (fun v => upd v a) (init a) acc) []

/-- The value the grouping fold associates to a key whose group (in input
order) is `g`: seed from the first member, fold the rest with `upd`. -/
def groupVal {α β : Type} [Inhabited β] (upd : β → α → β) (init : α → β) :
    List α → β
  | [] => default
  | h :: t => t.foldl upd (init h)


/-! ## Deduplication (`DataValidator.deduplicate_items`) -/

/-- The grouping key used by `deduplicate_items`: the Python tuple
`(item.part_number, item.page)`.  Note that a `None` part number is an
ordinary key value: items without part number also collide per page. -/
def dedupKey (item : ExtractedItem) : Option String × Int :=
  (item.part_number, item.page)

/-- The body of the `else` branch of the dedup loop: keep the stored item
unless the incoming one has strictly higher confidence. -/
def keepHigher (cur item : ExtractedItem) : ExtractedItem :=
  if cur.confidence < item.confidence then item else cur

/-- `DataValidator.deduplicate_items`: group by `(part_number, page)` in a
dict, keeping the highest-confidence item (first one on ties), and return
the dict values in key insertion order. -/
def deduplicate_items (items : List ExtractedItem) : List ExtractedItem :=
  (dictFold dedupKey keepHigher id items).map Prod.snd

/-! ## Table reconstruction (`src/table_detector.py`) -/

/-- Bounding box `(x, y, width, height)`, a named version of the Python
4-tuple used throughout the OCR data classes. -/
structure BBox where
  x : Int
  y : Int
  w : Int
  h : Int
deriving DecidableEq, Inhabited

/-- `OCRWord` dataclass from `src/ocr_handler.py`. -/
structure OCRWord where
  text : String
  confidence : ℚ
  bbox : BBox
  page_num : Int
deriving DecidableEq, Inhabited

/-- `OCRLine` dataclass from `src/ocr_handler.py`. -/
structure OCRLine where
  text : String
  words : List OCRWord
  bbox : BBox
  confidence : ℚ
  page_num : Int
deriving DecidableEq, Inhabited

/-- `TableCell` dataclass from `src/table_detector.py`. -/
structure TableCell where
  text : String
  bbox : BBox
  confidence : ℚ
  row : Nat
  col : Nat
  words : List OCRWord
deriving DecidableEq, Inhabited

/-- `TableRow` dataclass from `src/table_detector.py`. -/
structure TableRow where
  cells : List TableCell
  row_num : Nat
  bbox : BBox
  avg_confidence : ℚ
deriving DecidableEq, Inhabited

/-- Stable insertion of `a` into an already sorted list: `a` is placed after
every element `b` with `le b a`, so elements with equal keys keep their
relative order. -/
def stableInsert {α : Type} (le : α → α → Bool) (a : α) : List α → List α
  | [] => [a]
  | b :: bs => if le b a then b :: stableInsert le a bs else a :: b :: bs

/-- Stable sort (insertion sort, left to right), modelling Python's stable
`sorted(..., key=...)`. -/
def stableSort {α : Type} (le : α → α → Bool) (l : List α) : List α :=
  l.foldl (fun acc a => stableInsert le a acc) []

/-- `TableDetector._create_row_from_lines`: sort the row's lines left to
right, turn them into cells with increasing column indices, and compute the
union bounding box and mean confidence (with the source's guard for an empty
cell list). -/
def create_row_from_lines (lines : List OCRLine) (row_num : Nat) : TableRow :=
  let sorted_lines := stableSort (fun a b => a.bbox.x ≤ b.bbox.x) lines
  let cells := sorted_lines.enum.map (fun p =>
    TableCell.mk p.2.text p.2.bbox p.2.confidence row_num p.1 p.2.words)
  match cells with
  | [] =>
    { cells := cells, row_num := row_num, bbox := ⟨0, 0, 0, 0⟩, avg_confidence := 0 }
  | c :: cs =>
    let min_x := cs.foldl (fun m d => min m d.bbox.x) c.bbox.x
    let min_y := cs.foldl (fun m d => min m d.bbox.y) c.bbox.y
    let max_x := cs.foldl (fun m d => max m (d.bbox.x + d.bbox.w)) (c.bbox.x + c.bbox.w)
    let max_y := cs.foldl (fun m d => max m (d.bbox.y + d.bbox.h)) (c.bbox.y + c.bbox.h)
    { cells := cells
      row_num := row_num
      bbox := ⟨min_x, min_y, max_x - min_x, max_y - min_y⟩
      avg_confidence := (cells.map (fun c => c.confidence)).sum / cells.length }

/-- Lines sorted by vertical position (`sorted(lines, key=lambda l: l.bbox[1])`;
Python's sort is stable, as is `stableSort`). -/
def sortLinesByY (lines : List OCRLine) : List OCRLine :=
  stableSort (fun a b => a.bbox.y ≤ b.bbox.y) lines

/-- The page loop of `TableDetector._build_rows_from_positions`: accumulate
sorted lines into the current row while the vertical gap to the previous line
is under 15 pixels, and start a new row otherwise. -/
def build_rows_walk (row_num : Nat) (current_row_lines : List OCRLine)
    (prev_line : OCRLine) : List OCRLine → List TableRow
  | [] => [create_row_from_lines current_row_lines row_num]
  | line :: rest =>
    if |line.bbox.y - prev_line.bbox.y| < 15 then
      build_rows_walk row_num (current_row_lines ++ [line]) line rest
    else
      create_row_from_lines current_row_lines row_num ::
        build_rows_walk (row_num + 1) [line] line rest

/-- `TableDetector._build_rows_from_positions`: empty input gives no rows;
otherwise sort by vertical position and run the accumulation walk starting
from the topmost line. -/
def build_rows_from_positions (lines : List OCRLine) : List TableRow :=
  match sortLinesByY lines with
  | [] => []
  | h :: t => build_rows_walk 0 [h] h t

/-- The same walk, recorded as the partition of the sorted lines into row
groups (used to state what `build_rows_from_positions` does to row
membership). -/
def row_groups_walk (cur : List OCRLine) (prev : OCRLine) :
    List OCRLine → List (List OCRLine)
  | [] => [cur]
  | line :: rest =>
    if |line.bbox.y - prev.bbox.y| < 15 then
      row_groups_walk (cur ++ [line]) line rest
    else
      cur :: row_groups_walk [line] line rest

/-- Two lines are close enough vertically to share a row (gap under the
15-pixel threshold). -/
def same_row_gap (a b : OCRLine) : Prop :=
  |b.bbox.y - a.bbox.y| < 15

/-- The partition of the (sorted) lines into row groups produced by
`_build_rows_from_positions`. -/
def row_groups (lines : List OCRLine) : List (List OCRLine) :=
  match sortLinesByY lines with
  | [] => []
  | h :: t => row_groups_walk [h] h t

/-- A minimal line at a given position, for concrete examples. -/
def demoLine (x y : Int) : OCRLine := ⟨"L", [], ⟨x, y, 5, 5⟩, 90, 0⟩

/-- The specification's example page: lines at y = 10, 12, 30, 32. -/
def demoLines : List OCRLine :=
  [demoLine 0 10, demoLine 10 12, demoLine 0 30, demoLine 10 32]

/-! ## A small backtracking regex engine

`DataExtractor` (`src/extractor.py`) compiles all of its patterns with
`re.IGNORECASE` and reads them with `findall`.  We embed the fragment of
Python's regex language those patterns use: character classes, literals
(matched case-insensitively), concatenation, alternation, greedy counted
repetition, and the word-boundary assertion.  The matcher enumerates the
outcomes of a pattern at a position in Python's backtracking priority order
(alternatives left to right, repetitions longest first), so the head of the
list is the match Python finds. -/

/-- Abstract syntax of the regex fragment used by `DataExtractor`. -/
inductive RE where
  | eps
  | cls (p : Char → Bool)
  | lit (s : List Char)
  | seq (a b : RE)
  | alt (a b : RE)
  | rep (e : RE) (lo : Nat) (hi : Option Nat)
  | wb

/-- Python word character (`\w`, ASCII fragment), used by the boundary
assertion. -/
def isWordChar (c : Char) : Bool :=
  c.isAlpha || c.isDigit || c == '_'

/-- Word-boundary test between the previously consumed character and the
head of the remaining input. -/
def atBoundary (prev : Option Char) (s : List Char) : Bool :=
  (match prev with | none => false | some c => isWordChar c) !=
  (match s with | [] => false | c :: _ => isWordChar c)

/-- Case-insensitive literal matching.  A match outcome is the pair of the
last consumed character (for boundary tests) and the remaining input. -/
def matchLit : List Char → Option Char → List Char → List (Option Char × List Char)
  | [], prev, s => [(prev, s)]
  | _ :: _, _, [] => []
  | c :: cs, _, d :: ds => if c.toLower == d.toLower then matchLit cs (some d) ds else []

/-- Exactly `n` further repetitions of an element matcher. -/
def matchRepExact (f : Option Char → List Char → List (Option Char × List Char)) :
    Nat → Option Char → List Char → List (Option Char × List Char)
  | 0, prev, s => [(prev, s)]
  | n + 1, prev, s => (f prev s).flatMap (fun r => matchRepExact f n r.1 r.2)

/-- Up to `n` further repetitions, greedily (more repetitions enumerated
first); repetitions that consume nothing are cut off, which never changes
the language of the extractor's patterns since each repeated element there
consumes input. -/
def matchRepUpTo (f : Option Char → List Char → List (Option Char × List Char)) :
    Nat → Option Char → List Char → List (Option Char × List Char)
  | 0, prev, s => [(prev, s)]
  | n + 1, prev, s =>
    ((f prev s).filter (fun r => r.2.length < s.length)).flatMap
      (fun r => matchRepUpTo f n r.1 r.2) ++ [(prev, s)]

/-- All match outcomes of a regex at the current position, in backtracking
priority order. -/
def matchRE : RE → Option Char → List Char → List (Option Char × List Char)
  | .eps, prev, s => [(prev, s)]
  | .cls p, _, s =>
    match s with
    | [] => []
    | c :: cs => if p c then [(some c, cs)] else []
  | .lit l, prev, s => matchLit l prev s
  | .seq a b, prev, s => (matchRE a prev s).flatMap (fun r => matchRE b r.1 r.2)
  | .alt a b, prev, s => matchRE a prev s ++ matchRE b prev s
  | .rep e lo hi, prev, s =>
    (matchRepExact (matchRE e) lo prev s).flatMap (fun r =>
      matchRepUpTo (matchRE e)
        (match hi with | some h => h - lo | none => r.2.length) r.1 r.2)
  | .wb, prev, s => if atBoundary prev s then [(prev, s)] else []

/-- One of the extractor's patterns: every pattern in `DataExtractor.PATTERNS`
has exactly one capturing group, here split as prefix, group, suffix. -/
structure Pat where
  pre : RE
  grp : RE
  post : RE

/-- First (leftmost-greedy) full match of `pat` at the current position:
the text captured by the group, plus the last consumed character and the
remaining input after the whole match. -/
def matchPatHere (pat : Pat) (prev : Option Char) (s : List Char) :
    Option (List Char × Option Char × List Char) :=
  ((matchRE pat.pre prev s).flatMap (fun r1 =>
    (matchRE pat.grp r1.1 r1.2).flatMap (fun r2 =>
      (matchRE pat.post r2.1 r2.2).map (fun r3 =>
        (r1.2.take (r1.2.length - r2.2.length), r3.1, r3.2))))).head?

/-- Scanning loop of `findall`: try the pattern at each position, emit the
group capture of every non-overlapping match and resume after it. -/
def findallAux (pat : Pat) : Nat → Option Char → List Char → List String
  | 0, _, _ => []
  | fuel + 1, prev, s =>
    match matchPatHere pat prev s with
    | some (cap, prev2, rest) =>
      if rest.length < s.length then
        String.mk cap :: findallAux pat fuel prev2 rest
      else
        match s with
        | [] => [String.mk cap]
        | c :: cs => String.mk cap :: findallAux pat fuel (some c) cs
    | none =>
      match s with
      | [] => []
      | c :: cs => findallAux pat fuel (some c) cs

/-- Python's `pattern.findall(text)` for a single-group pattern. -/
def findall (pat : Pat) (text : String) : List String :=
  findallAux pat (text.length + 1) none text.toList

/-! ## The extractor's patterns (`DataExtractor.PATTERNS`)

All compiled with `re.IGNORECASE`, so the character classes written
`[A-Z]`/`[A-Z0-9]` in the source match letters of either case, and literals
match case-insensitively. -/

/-- `\d`. -/
def digitRE : RE := .cls Char.isDigit

/-- `[A-Z]` under `IGNORECASE`. -/
def letterRE : RE := .cls Char.isAlpha

/-- `[A-Z0-9]` under `IGNORECASE`. -/
def alnumRE : RE := .cls (fun c => c.isAlpha || c.isDigit)

/-- `\s*`. -/
def wsStarRE : RE := .rep (.cls isPySpace) 0 none

/-- Single literal character. -/
def chRE (c : Char) : RE := .lit [c]

/-- Literal string (matched case-insensitively). -/
def strRE (s : String) : RE := .lit s.toList

/-- `e?`. -/
def optRE (e : RE) : RE := .rep e 0 (some 1)

/-- `e{lo,hi}`. -/
def repRE (e : RE) (lo hi : Nat) : RE := .rep e lo (some hi)

/-- `\d{1,3}(?:,\d{3})*`, the integer body shared by the price patterns. -/
def numCommaRE : RE :=
  .seq (repRE digitRE 1 3) (.rep (.seq (chRE ',') (repRE digitRE 3 3)) 0 none)

/-- The price-number group with optional cents: `\d{1,3}(?:,\d{3})*(?:\.\d{2})?`. -/
def numOptDecRE : RE :=
  .seq numCommaRE (optRE (.seq (chRE '.') (repRE digitRE 2 2)))

/-- The price-number group with mandatory cents: `\d{1,3}(?:,\d{3})*\.\d{2}`. -/
def numReqDecRE : RE :=
  .seq numCommaRE (.seq (chRE '.') (repRE digitRE 2 2))

/-- Price pattern `\$\s*(\d{1,3}(?:,\d{3})*(?:\.\d{2})?)`. -/
def pricePat1 : Pat := ⟨.seq (chRE '$') wsStarRE, numOptDecRE, .eps⟩

/-- Price pattern `USD\s*(\d{1,3}(?:,\d{3})*(?:\.\d{2})?)`. -/
def pricePat2 : Pat := ⟨.seq (strRE "USD") wsStarRE, numOptDecRE, .eps⟩

/-- Price pattern `(\d{1,3}(?:,\d{3})*\.\d{2})\s*(?:USD|\$)?`. -/
def pricePat3 : Pat :=
  ⟨.eps, numReqDecRE, .seq wsStarRE (optRE (.alt (strRE "USD") (chRE '$')))⟩

/-- `PATTERNS['price']`, in source order. -/
def pricePats : List Pat := [pricePat1, pricePat2, pricePat3]

/-- Part pattern `\b(\d{2}[-]\d{3,4}[A-Z0-9]{0,6}(?:[-]\d+)?)\b`. -/
def partPat1 : Pat :=
  ⟨.wb,
   .seq (repRE digitRE 2 2) (.seq (chRE '-') (.seq (repRE digitRE 3 4)
     (.seq (repRE alnumRE 0 6) (optRE (.seq (chRE '-') (.rep digitRE 1 none)))))),
   .wb⟩

/-- Part pattern `\b(\d{2}[A-Z][-]?\d{4})\b`. -/
def partPat2 : Pat :=
  ⟨.wb,
   .seq (repRE digitRE 2 2) (.seq letterRE (.seq (optRE (chRE '-')) (repRE digitRE 4 4))),
   .wb⟩

/-- Part pattern `\b([A-Z]{2,4}[-]\d{4,6}[-]?[A-Z0-9]{0,6})\b`. -/
def partPat3 : Pat :=
  ⟨.wb,
   .seq (repRE letterRE 2 4) (.seq (chRE '-') (.seq (repRE digitRE 4 6)
     (.seq (optRE (chRE '-')) (repRE alnumRE 0 6)))),
   .wb⟩

/-- Part pattern `\b([A-Z]{3}\d{4,6})\b`. -/
def partPat4 : Pat := ⟨.wb, .seq (repRE letterRE 3 3) (repRE digitRE 4 6), .wb⟩

/-- Part pattern `\b(\d{2}[-]\d{3,4}[A-Z])\b`. -/
def partPat5 : Pat :=
  ⟨.wb, .seq (repRE digitRE 2 2) (.seq (chRE '-') (.seq (repRE digitRE 3 4) letterRE)), .wb⟩

/-- `PATTERNS['part_number']`, in source order. -/
def partPats : List Pat := [partPat1, partPat2, partPat3, partPat4, partPat5]

/-- Brand pattern `\b([A-Z]{2,4})\b` (matches either case under `IGNORECASE`). -/
def brandPat : Pat := ⟨.wb, repRE letterRE 2 4, .wb⟩

/-- `PATTERNS['brand_code']`. -/
def brandPats : List Pat := [brandPat]

/-- Price-type pattern
`\b(retail|sale|each|per\s*unit|list\s*price|your\s*price)\b`. -/
def priceTypePat : Pat :=
  ⟨.wb,
   .alt (strRE "retail") (.alt (strRE "sale") (.alt (strRE "each")
     (.alt (.seq (strRE "per") (.seq wsStarRE (strRE "unit")))
       (.alt (.seq (strRE "list") (.seq wsStarRE (strRE "price")))
         (.seq (strRE "your") (.seq wsStarRE (strRE "price"))))))),
   .wb⟩

/-- `PATTERNS['price_type']`. -/
def priceTypePats : List Pat := [priceTypePat]

/-! ## Field extraction (`src/extractor.py`, class `DataExtractor`) -/

/-- `DataExtractor._extract_pattern`: run every pattern of the requested
type over the text, concatenate the matches in pattern order, and drop later
duplicates (seen-set loop, first-seen order preserved). -/
def extract_pattern (pats : List Pat) (text : String) : List String :=
  firstKeys (pats.flatMap (fun p => findall p text))

/-- Python `str.replace(',', '')` applied to a matched price string. -/
def stripCommas (s : String) : String :=
  String.mk (s.toList.filter (fun c => c ≠ ','))

/-- Natural value of a digit string. -/
def digitsVal (cs : List Char) : ℕ :=
  cs.foldl (fun n c => n * 10 + (c.toNat - 48)) 0

/-- Python `float(s)` on the plain decimal strings the price patterns can
produce (optional single dot between digit runs); `none` models a
`ValueError` on anything else. -/
def parsePyFloat (s : String) : Option ℚ :=
  let cs := s.toList
  let ip := cs.takeWhile (fun c => c ≠ '.')
  let rest := cs.dropWhile (fun c => c ≠ '.')
  if ip.all Char.isDigit then
    match rest with
    | [] => if ip = [] then none else some (digitsVal ip)
    | _ :: fp =>
      if fp.all Char.isDigit ∧ (ip ≠ [] ∨ fp ≠ []) then
        some ((digitsVal ip : ℚ) + (digitsVal fp : ℚ) / ((10 : ℚ) ^ fp.length))
      else none
  else none

/-- `DataExtractor._extract_prices`: match the price patterns, strip
thousands separators, parse, and keep only values in `[0.01, 1000000]`. -/
def extract_prices (text : String) : List ℚ :=
  (extract_pattern pricePats text).filterMap (fun price_str =>
    match parsePyFloat (stripCommas price_str) with
    | some price_val =>
      if 1/100 ≤ price_val ∧ price_val ≤ 1000000 then some price_val else none
    | none => none)

/-- `DataExtractor._extract_from_row`: pull part numbers, prices, a brand
code and a price type out of the row text (cells joined with spaces) and
build candidate items according to which of part numbers/prices were found. -/
def extract_from_row (row : TableRow) (page_num : Int) : List ExtractedItem :=
  let row_text := String.intercalate " " (row.cells.map (fun c => c.text))
  let part_numbers := extract_pattern partPats row_text
  let prices := extract_prices row_text
  if part_numbers = [] ∧ prices = [] then []
  else
    let brand_codes := extract_pattern brandPats row_text
    let brand_code := brand_codes.head?
    let price_types := extract_pattern priceTypePats row_text
    let price_type := (price_types.head?).getD "retail"
    let row_bbox := some (row.bbox.x, row.bbox.y, row.bbox.w, row.bbox.h)
    if part_numbers ≠ [] ∧ prices ≠ [] then
      part_numbers.flatMap (fun part_num =>
        (prices.take 1).map (fun price_val =>
          { brand_code := brand_code, part_number := some part_num
            price_type := some price_type, price_value := some price_val
            currency := "USD", page := page_num, confidence := row.avg_confidence
            raw_text := row_text, bbox := row_bbox }))
    else if part_numbers ≠ [] then
      part_numbers.map (fun part_num =>
        { brand_code := brand_code, part_number := some part_num
          price_type := none, price_value := none
          currency := "USD", page := page_num, confidence := row.avg_confidence
          raw_text := row_text, bbox := row_bbox })
    else
      prices.map (fun price_val =>
        { brand_code := brand_code, part_number := none
          price_type := some price_type, price_value := some price_val
          currency := "USD", page := page_num, confidence := row.avg_confidence
          raw_text := row_text, bbox := row_bbox })

/-- `DataExtractor.extract_from_rows`. -/
def extract_from_rows (rows : List TableRow) (page_num : Int) : List ExtractedItem :=
  rows.flatMap (fun row => extract_from_row row page_num)

/-- Python's substring containment `needle in hay` on character lists. -/
def substringOf (needle hay : List Char) : Bool :=
  hay.tails.any (fun t => needle.isPrefixOf t)

/-- Confidence assigned to a plain-text line in
`DataExtractor.extract_from_text`: 80 by default, or the mean confidence of
the OCR words whose text occurs in the line. -/
def line_confidence (words : Option (List OCRWord)) (line : String) : ℚ :=
  let confidence : ℚ := 80
  match words with
  | some ws =>
    if ws ≠ [] then
      let line_words := ws.filter (fun w => substringOf w.text.toList line.toList)
      if line_words ≠ [] then
        (line_words.map (fun w => w.confidence)).sum / line_words.length
      else confidence
    else confidence
  | none => confidence

/-- Body of the per-line loop of `DataExtractor.extract_from_text` for one
(stripped, nonempty) line. -/
def extract_from_text_line (line : String) (page_num : Int)
    (words : Option (List OCRWord)) : List ExtractedItem :=
  let part_numbers := extract_pattern partPats line
  let prices := extract_prices line
  if part_numbers = [] ∧ prices = [] then []
  else
    let brand_codes := extract_pattern brandPats line
    let brand_code := brand_codes.head?
    let price_types := extract_pattern priceTypePats line
    let price_type := (price_types.head?).getD "retail"
    let confidence := line_confidence words line
    if part_numbers ≠ [] ∧ prices ≠ [] then
      part_numbers.flatMap (fun part_num =>
        (prices.take 1).map (fun price_val =>
          { brand_code := brand_code, part_number := some part_num
            price_type := some price_type, price_value := some price_val
            currency := "USD", page := page_num, confidence := confidence
            raw_text := line, bbox := none }))
    else if part_numbers ≠ [] then
      part_numbers.map (fun part_num =>
        { brand_code := brand_code, part_number := some part_num
          price_type := none, price_value := none
          currency := "USD", page := page_num, confidence := confidence
          raw_text := line, bbox := none })
    else
      prices.map (fun price_val =>
        { brand_code := brand_code, part_number := none
          price_type := some price_type, price_value := some price_val
          currency := "USD", page := page_num, confidence := confidence
          raw_text := line, bbox := none })

/-- `DataExtractor.extract_from_text`: split into lines, strip each, skip
empty ones, and extract per line. -/
def extract_from_text (text : String) (page_num : Int)
    (words : Option (List OCRWord)) : List ExtractedItem :=
  (text.splitOn "\n").flatMap (fun raw =>
    let line := raw.trim
    if line = "" then [] else extract_from_text_line line page_num words)

/-! ## Persisted rows and extraction passes (`src/multi_pass_processor.py`) -/

/-- A persisted `extracted_items` row (`src/database.py`), restricted to the
columns the pipeline reads back. -/
structure DbItem where
  brand_code : Option String
  part_number : Option String
  price_type : Option String
  price_value : Option ℚ
  currency : String
  page : Int
  confidence : ℚ
  raw_text : String
  bbox : Option (Int × Int × Int × Int)
deriving DecidableEq, Inhabited

/-- Conversion performed by the store loop of `_run_pass` when a candidate
item is written to the database. -/
def toDbItem (item : ExtractedItem) : DbItem :=
  ⟨item.brand_code, item.part_number, item.price_type, item.price_value,
   item.currency, item.page, item.confidence, item.raw_text, item.bbox⟩

/-- Pass status enum (`ExtractionStatus` in `src/database.py`). -/
inductive PassStatus where
  | pending
  | processing
  | completed
  | failed
deriving DecidableEq

/-- Result of `MultiPassProcessor._run_pass` on the happy path: the rows it
wrote to the store, and the statistics recorded on the pass row. -/
structure PassRunResult where
  persisted : List DbItem
  items_extracted : Nat
  avg_confidence : Option ℚ
deriving DecidableEq

/-- Shallow model of `MultiPassProcessor._run_pass` once the strategy has
produced `page_results` (one item list per successfully processed page, in
page order; pages whose strategy call raised are absent, matching the
per-page `except ... continue`).  Each page's items are persisted
immediately when the page is processed; validation and deduplication are
applied afterwards to the in-memory `all_items` list and feed only the
`items_extracted` and `avg_confidence` statistics. -/
def run_pass (min_confidence : ℚ) (page_results : List (List ExtractedItem)) :
    PassRunResult :=
  let loop := page_results.foldl
    (fun (acc : List DbItem × List ExtractedItem) items =>
      (acc.1 ++ items.map toDbItem, acc.2 ++ items))
    ([], [])
  let validated_items := validate_items min_confidence loop.2
  let final_items := deduplicate_items validated_items
  { persisted := loop.1
    items_extracted := final_items.length
    avg_confidence :=
      if final_items ≠ [] then
        some ((final_items.map (fun i => i.confidence)).sum / final_items.length)
      else none }

/-- A pass row together with its persisted items: the slice of the store
read by `_find_low_confidence_pages` and by consolidation. -/
structure PassRec where
  status : PassStatus
  items : List DbItem
deriving DecidableEq

/-- `MultiPassProcessor.low_confidence_threshold`. -/
def low_confidence_threshold : ℚ := 60

/-- `MultiPassProcessor._find_low_confidence_pages`: group the confidences
of every item of every completed pass by page (dict insertion order) and
return the pages whose mean confidence is under the threshold. -/
def find_low_confidence_pages (passes : List PassRec) : List Int :=
  let completed := passes.filter (fun p => p.status = PassStatus.completed)
  let page_confidences :=
    dictFold (fun i : DbItem => i.page) (fun cs i => cs ++ [i.confidence])
      (fun i => [i.confidence]) (completed.flatMap (fun p => p.items))
  (page_confidences.filter
    (fun e => e.2.sum / e.2.length < low_confidence_threshold)).map Prod.fst

/-- Configuration of one `_run_pass` invocation as made by
`process_auto_multi_pass`. -/
structure PassAttempt where
  pass_number : Nat
  method : String
  dpi : Nat
  force_ocr : Bool
  target_pages : Option (List Int)
deriving DecidableEq

/-- Outcome of `process_auto_multi_pass`: the pass ids returned, the
`_run_pass` invocations made (in order), and the exception propagated to
the caller, if any. -/
structure MultiPassOutcome where
  pass_ids : List Nat
  attempts : List PassAttempt
  error : Option String
deriving DecidableEq

/-- Pass-1 configuration: `ocr_table` at the caller's dpi, OCR forced on. -/
def pass1_attempt (dpi : Nat) : PassAttempt := ⟨1, "ocr_table", dpi, true, none⟩

/-- Pass-2 configuration: `ocr_aggressive` with the options dpi overwritten
to 400, OCR forced on. -/
def pass2_attempt : PassAttempt := ⟨2, "ocr_aggressive", 400, true, none⟩

/-- Pass-3 configuration: `ocr_plain` at 450 dpi on the given target pages. -/
def pass3_attempt (low : List Int) : PassAttempt := ⟨3, "ocr_plain", 450, true, some low⟩

/-- The error with which the controller itself crashes after a swallowed
pass-2 failure: `pass2_id` is assigned only inside the pass-2 `try` block,
so the statistics line `self._analyze_pass_results(pass2_id)` that follows
the `except` reads an unassigned local and raises `UnboundLocalError`,
which nothing in `process_auto_multi_pass` catches. -/
def pass2UnboundLocalError : String :=
  "UnboundLocalError: local variable pass2_id referenced before assignment"

/-- Shallow model of `MultiPassProcessor.process_auto_multi_pass`.  The
outcome of each `_run_pass` invocation is abstracted by the oracle
`run_result` (pass id on success, error message on failure) and `store` is
the persisted pass/item state read by `_find_low_confidence_pages` between
pass 2 and pass 3.  The `except` clause of pass 1 re-raises.  The `except`
clause of pass 2 swallows the exception, but the controller then reads the
unassigned local `pass2_id` on the pass-2 statistics line and crashes with
an `UnboundLocalError` that propagates to the caller, so pass 3 is never
reached after a pass-2 failure.  Only a pass-3 failure is swallowed with
the run completing; `pass_ids` lists the ids created before any failure. -/
def process_auto_multi_pass (dpi : Nat)
    (run_result : PassAttempt → Except String Nat) (store : List PassRec) :
    MultiPassOutcome :=
  match run_result (pass1_attempt dpi) with
  | .error e => ⟨[], [pass1_attempt dpi], some e⟩
  | .ok pass1_id =>
    match run_result pass2_attempt with
    | .error _ =>
      ⟨[pass1_id], [pass1_attempt dpi, pass2_attempt], some pass2UnboundLocalError⟩
    | .ok pass2_id =>
      let low_confidence_pages := find_low_confidence_pages store
      if low_confidence_pages ≠ [] then
        match run_result (pass3_attempt low_confidence_pages) with
        | .error _ =>
          ⟨[pass1_id, pass2_id],
           [pass1_attempt dpi, pass2_attempt, pass3_attempt low_confidence_pages], none⟩
        | .ok pass3_id =>
          ⟨[pass1_id, pass2_id, pass3_id],
           [pass1_attempt dpi, pass2_attempt, pass3_attempt low_confidence_pages], none⟩
      else
        ⟨[pass1_id, pass2_id], [pass1_attempt dpi, pass2_attempt], none⟩

/-- Resolution at which `OCRAggressiveStrategy.extract` renders a page:
`max(dpi, 400)` of the dpi found in the options it receives. -/
def ocr_aggressive_render_dpi (dpi : Nat) : Nat := max dpi 400

/-! ## Consolidation (`api.py`, `consolidate_document_items`) -/

/-- A `consolidated_items` row (`src/database.py`), restricted to the
columns consolidation writes. -/
structure ConsolidatedItem where
  brand_code : Option String
  part_number : Option String
  price_type : Option String
  price_value : Option ℚ
  currency : String
  page : Int
  avg_confidence : ℚ
  source_count : Nat
deriving DecidableEq

/-- Python `max(items, key=lambda x: x.confidence or 0)`: the first item
with maximal confidence.  (The `or 0` guard maps a confidence of exactly 0
to the same value in this model.) -/
def maxByConfidence (h : DbItem) (t : List DbItem) : DbItem :=
  t.foldl (fun best i => if best.confidence < i.confidence then i else best) h

/-- Python `i.price_value and i.price_value > 0`. -/
def hasPositivePrice (i : DbItem) : Bool :=
  match i.price_value with
  | none => false
  | some v => if v == 0 then false else decide (0 < v)

/-- The grouping-and-selection loop of `consolidate_document_items`: group
the items by `(part_number, page)`, skipping falsy part numbers, then per
group prefer the highest-confidence item among those with a positive price,
else the highest-confidence item overall, and record the group's mean
confidence and size. -/
def build_consolidated (all_items : List DbItem) : List ConsolidatedItem :=
  let grouped := dictFold (fun i : DbItem => (i.part_number, i.page))
    (fun g i => g ++ [i]) (fun i => [i])
    (all_items.filter (fun i => pyTruthyStr i.part_number))
  grouped.flatMap (fun e =>
    match e.2 with
    | [] => []
    | h :: t =>
      let items_with_price := (h :: t).filter hasPositivePrice
      let best_item := match items_with_price with
        | [] => maxByConfidence h t
        | hp :: tp => maxByConfidence hp tp
      if pyTruthyStr best_item.part_number then
        [{ brand_code := best_item.brand_code
           part_number := best_item.part_number
           price_type := best_item.price_type
           price_value := best_item.price_value
           currency := best_item.currency
           page := e.1.2
           avg_confidence := ((h :: t).map (fun i => i.confidence)).sum / (h :: t).length
           source_count := (h :: t).length }]
      else [])

/-- Consolidation-relevant state of one document in the store: its passes
(with their items) and its current consolidated rows. -/
structure DocState where
  passes : List PassRec
  consolidated : List ConsolidatedItem
deriving DecidableEq

/-- `consolidate_document_items`: with no completed passes, return without
touching the stored consolidated rows; otherwise delete them all and insert
the rows rebuilt from the completed passes' items. -/
def consolidate_document_items (st : DocState) : DocState :=
  let passes := st.passes.filter (fun p => p.status = PassStatus.completed)
  if passes = [] then st
  else
    let all_items := passes.flatMap (fun p => p.items)
    { st with consolidated := build_consolidated all_items }

/-! ## Specification-side restatements -/

/-- Closed form of the part-number sub-score exactly as the specification
words it: base 50; +20 if the length is in [5,15] and −10 if longer than 15;
+20 for mixed letters and digits or +10 for digits only; +10 for a dash or
space; −20 if more than 2 characters fall outside `[A-Za-z0-9\-\s]`; clamped
to [0,100].  Stated for comparison with `validate_part_number`, which is
translated from the source's sequential updates. -/
def part_number_score_spec (pn : String) : ℚ :=
  let len_bonus : ℚ :=
    if 5 ≤ pn.length ∧ pn.length ≤ 15 then 20 else if 15 < pn.length then -10 else 0
  let mix_bonus : ℚ :=
    if pn.toList.any Char.isAlpha && pn.toList.any Char.isDigit then 20
    else if pn.toList.any Char.isDigit then 10 else 0
  let sep_bonus : ℚ :=
    if pn.toList.contains '-' || pn.toList.contains ' ' then 10 else 0
  let special_penalty : ℚ :=
    if 2 < (pn.toList.filter
        (fun c => !(c.isAlpha || c.isDigit || c == '-' || isPySpace c))).length
    then 20 else 0
  max 0 (min 100 (50 + len_bonus + mix_bonus + sep_bonus - special_penalty))

/-- The confidences that `_find_low_confidence_pages` aggregates for a given
page: those of every item of every completed pass whose page matches. -/
def completedConfs (passes : List PassRec) (page : Int) : List ℚ :=
  (((passes.filter (fun p => p.status = PassStatus.completed)).flatMap
      (fun p => p.items)).filter (fun i => i.page = page)).map (fun i => i.confidence)

/-- A store with one completed pass holding a single confidence-50 item on
page 2, used to exercise the pass-3 trigger condition on a concrete input. -/
def lowConfStore : List PassRec :=
  [⟨PassStatus.completed, [⟨none, some "X", none, none, "USD", 2, 50, "t", none⟩]⟩]

/-- A minimal table cell holding the given text, for concrete examples. -/
def demoCell (text : String) : TableCell := ⟨text, ⟨0, 0, 5, 5⟩, 90, 0, 0, []⟩

/-- A one-cell row whose text contains a price but no price-type keyword. -/
def demoRowPrice : TableRow := ⟨[demoCell "$29.99"], 0, ⟨0, 0, 5, 5⟩, 90⟩

/-- A one-cell row whose text contains a part number and a price-type
keyword but no price. -/
def demoRowPart : TableRow := ⟨[demoCell "retail SUM-715030"], 0, ⟨0, 0, 5, 5⟩, 90⟩

/-! ## Lemma development -/

section DictLemmas

variable {α K β : Type} [DecidableEq K]

theorem firstKeys_append_singleton (ks : List K) (k : K) :
    firstKeys (ks ++ [k]) =
      if k ∈ firstKeys ks then firstKeys ks else firstKeys ks ++ [k] := by
  simp [firstKeys, List.foldl_append]

theorem mem_foldl_insertKey (ks : List K) (acc : List K) (x : K) :
    x ∈ ks.foldl (fun acc k => if k ∈ acc then acc else acc ++ [k]) acc ↔
      x ∈ acc ∨ x ∈ ks := by
  induction ks generalizing acc with
  | nil => simp
  | cons k ks ih =>
    simp only [List.foldl_cons, ih]
    by_cases hk : k ∈ acc
    · rw [if_pos hk]
      simp only [List.mem_cons]
      constructor
      · tauto
      · rintro (h | rfl | h)
        · exact Or.inl h
        · exact Or.inl hk
        · exact Or.inr h
    · simp [hk, List.mem_append]
      tauto

theorem mem_firstKeys (ks : List K) (x : K) : x ∈ firstKeys ks ↔ x ∈ ks := by
  simpa [firstKeys] using mem_foldl_insertKey ks [] x

theorem nodup_foldl_insertKey (ks : List K) (acc : List K) (h : acc.Nodup) :
    (ks.foldl (fun acc k => if k ∈ acc then acc else acc ++ [k]) acc).Nodup := by
  induction ks generalizing acc with
  | nil => simpa using h
  | cons k ks ih =>
    simp only [List.foldl_cons]
    by_cases hk : k ∈ acc
    · simpa [hk] using ih acc h
    · refine ih _ ?_
      simpa [List.nodup_append, hk] using h

theorem firstKeys_nodup (ks : List K) : (firstKeys ks).Nodup :=
  nodup_foldl_insertKey ks [] List.nodup_nil

theorem dictUpsert_of_not_mem (k : K) (f : β → β) (init : β) (d : List (K × β))
    (h : k ∉ d.map Prod.fst) :
    dictUpsert k f init d = d ++ [(k, init)] := by
  induction d with
  | nil => rfl
  | cons e rest ih =>
    obtain ⟨k', v⟩ := e
    simp only [List.map_cons, List.mem_cons] at h
    push_neg at h
    simp [dictUpsert, Ne.symm h.1, ih h.2]

theorem dictUpsert_of_mem (k : K) (f : β → β) (init : β) (d : List (K × β))
    (hmem : k ∈ d.map Prod.fst) (hnd : (d.map Prod.fst).Nodup) :
    dictUpsert k f init d = d.map (fun e => if e.1 = k then (e.1, f e.2) else e) := by
  induction d with
  | nil => simp at hmem
  | cons e rest ih =>
    obtain ⟨k', v⟩ := e
    simp only [List.map_cons, List.nodup_cons] at hnd
    by_cases hk : k' = k
    · subst hk
      have : ∀ e ∈ rest, (fun e : K × β => if e.1 = k' then (e.1, f e.2) else e) e = e := by
        intro e he
        have : e.1 ≠ k' := fun h => hnd.1 (h ▸ List.mem_map_of_mem Prod.fst he)
        simp [this]
      simp [dictUpsert, List.map_congr_left this]
    · simp only [List.map_cons, List.mem_cons] at hmem
      rcases hmem with h | h
      · exact absurd h.symm hk
      · simp [dictUpsert, hk, ih h hnd.2]

theorem groupVal_append_singleton {α β : Type} [Inhabited β] (upd : β → α → β)
    (init : α → β) (g : List α) (x : α) (h : g ≠ []) :
    groupVal upd init (g ++ [x]) = upd (groupVal upd init g) x := by
  obtain ⟨a, t, rfl⟩ := List.exists_cons_of_ne_nil h
  simp [groupVal, List.foldl_append]

theorem filter_key_eq_nil {α K : Type} [DecidableEq K] (key : α → K) (l : List α)
    (k : K) (h : k ∉ l.map key) : l.filter (fun a => key a = k) = [] := by
  rw [List.filter_eq_nil_iff]
  intro a ha
  simp only [decide_eq_true_eq]
  exact fun hk => h (hk ▸ List.mem_map_of_mem key ha)

theorem filter_key_ne_nil {α K : Type} [DecidableEq K] (key : α → K) (l : List α)
    (k : K) (h : k ∈ l.map key) : l.filter (fun a => key a = k) ≠ [] := by
  rw [Ne, List.filter_eq_nil_iff]
  obtain ⟨a, ha, rfl⟩ := List.mem_map.1 h
  push_neg
  exact ⟨a, ha, by simp⟩

/-- Characterization of the grouping fold: it returns, for each distinct key
in first-seen order, the pair of the key and the fold of its (order
preserved) group. -/
theorem dictFold_eq {α K β : Type} [DecidableEq K] [Inhabited β] (key : α → K)
    (upd : β → α → β) (init : α → β) (l : List α) :
    dictFold key upd init l =
      (firstKeys (l.map key)).map
        (fun k => (k, groupVal upd init (l.filter (fun a => key a = k)))) := by
  induction l using List.reverseRecOn with
  | nil => rfl
  | append_singleton l x ih =>
    have hstep : dictFold key upd init (l ++ [x]) =
        dictUpsert (key x) (fun v => upd v x) (init x) (dictFold key upd init l) := by
      simp [dictFold, List.foldl_append]
    rw [hstep, ih]
    have hfst : ((firstKeys (l.map key)).map
        (fun k => (k, groupVal upd init (l.filter (fun a => key a = k))))).map Prod.fst
        = firstKeys (l.map key) := by
      have hcomp : (Prod.fst ∘ fun k : K =>
          (k, groupVal upd init (l.filter (fun a => key a = k)))) = id := rfl
      rw [List.map_map, hcomp, List.map_id]
    by_cases hmem : key x ∈ firstKeys (l.map key)
    · have hmem' : key x ∈ ((firstKeys (l.map key)).map
          (fun k => (k, groupVal upd init (l.filter (fun a => key a = k))))).map Prod.fst := by
        rw [hfst]; exact hmem
      have hnd' : (((firstKeys (l.map key)).map
          (fun k => (k, groupVal upd init (l.filter (fun a => key a = k))))).map Prod.fst).Nodup := by
        rw [hfst]; exact firstKeys_nodup (l.map key)
      rw [dictUpsert_of_mem _ _ _ _ hmem' hnd', List.map_map]
      have hkeys : firstKeys ((l ++ [x]).map key) = firstKeys (l.map key) := by
        rw [List.map_append, List.map_singleton, firstKeys_append_singleton, if_pos hmem]
      rw [hkeys]
      refine List.map_congr_left ?_
      intro k hk
      by_cases hkx : k = key x
      · have hne := filter_key_ne_nil key l k
          ((mem_firstKeys _ _).1 (by rw [hkx]; exact hmem))
        have hfilter : (l ++ [x]).filter (fun a => key a = k) =
            l.filter (fun a => key a = k) ++ [x] := by
          simp [List.filter_append, hkx.symm]
        simp only [Function.comp_apply, hfilter,
          groupVal_append_singleton _ _ _ _ hne]
        simp [hkx]
      · have hfilter : (l ++ [x]).filter (fun a => key a = k) =
            l.filter (fun a => key a = k) := by
          simp [List.filter_append, Ne.symm hkx]
        simp [Function.comp, hfilter, hkx]
    · have hmem' : key x ∉ ((firstKeys (l.map key)).map
          (fun k => (k, groupVal upd init (l.filter (fun a => key a = k))))).map Prod.fst := by
        rw [hfst]; exact hmem
      rw [dictUpsert_of_not_mem _ _ _ _ hmem']
      have hkeys : firstKeys ((l ++ [x]).map key) = firstKeys (l.map key) ++ [key x] := by
        rw [List.map_append, List.map_singleton, firstKeys_append_singleton, if_neg hmem]
      rw [hkeys, List.map_append, List.map_singleton]
      congr 1
      · refine List.map_congr_left ?_
        intro k hk
        have hkx : key x ≠ k := fun h => hmem (h ▸ hk)
        have hfilter : (l ++ [x]).filter (fun a => key a = k) =
            l.filter (fun a => key a = k) := by
          simp [List.filter_append, hkx]
        rw [hfilter]
      · have hnil : l.filter (fun a => key a = key x) = [] :=
          filter_key_eq_nil key l (key x) (fun h => hmem ((mem_firstKeys _ _).2 h))
        have hfilter : (l ++ [x]).filter (fun a => key a = key x) = [x] := by
          simp [List.filter_append, hnil]
        rw [hfilter]
        rfl

end DictLemmas

theorem takeWhile_digits_dot (fp : List Char) (ip : List Char)
    (hip : ip.all Char.isDigit = true) :
    (ip ++ '.' :: fp).takeWhile (fun c => decide (c ≠ '.')) = ip := by
  induction ip with
  | nil =>
    rw [List.nil_append, List.takeWhile_cons]
    have hd : (decide (('.' : Char) ≠ '.')) = false := by decide
    rw [hd]
    simp
  | cons c cs ih =>
    simp only [List.all_cons, Bool.and_eq_true] at hip
    have hcne : c ≠ '.' := by
      intro h
      rw [h] at hip
      exact absurd hip.1 (by decide)
    have hd : (decide (c ≠ '.')) = true := decide_eq_true hcne
    rw [List.cons_append, List.takeWhile_cons, hd]
    simp only [if_true, ite_true]
    rw [ih hip.2]

theorem dropWhile_digits_dot (fp : List Char) (ip : List Char)
    (hip : ip.all Char.isDigit = true) :
    (ip ++ '.' :: fp).dropWhile (fun c => decide (c ≠ '.')) = '.' :: fp := by
  induction ip with
  | nil =>
    rw [List.nil_append, List.dropWhile_cons]
    have hd : (decide (('.' : Char) ≠ '.')) = false := by decide
    rw [hd]
    simp
  | cons c cs ih =>
    simp only [List.all_cons, Bool.and_eq_true] at hip
    have hcne : c ≠ '.' := by
      intro h
      rw [h] at hip
      exact absurd hip.1 (by decide)
    have hd : (decide (c ≠ '.')) = true := decide_eq_true hcne
    rw [List.cons_append, List.dropWhile_cons, hd]
    simp only [if_true, ite_true]
    exact ih hip.2

/-- Evaluation of the Python-float model on a digits-dot-digits string. -/
theorem parsePyFloat_int_frac (ip fp : List Char)
    (hip : ip.all Char.isDigit = true) (hfp : fp.all Char.isDigit = true)
    (hne : ip ≠ []) :
    parsePyFloat (String.mk (ip ++ '.' :: fp)) =
      some ((digitsVal ip : ℚ) + (digitsVal fp : ℚ) / (10 : ℚ) ^ fp.length) := by
  simp only [parsePyFloat, String.toList]
  rw [takeWhile_digits_dot fp ip hip, dropWhile_digits_dot fp ip hip]
  simp [hip, hfp, hne]

theorem confidence_le_foldl_keepHigher (t : List ExtractedItem) :
    ∀ h : ExtractedItem, h.confidence ≤ (t.foldl keepHigher h).confidence := by
  induction t with
  | nil => intro h; exact le_refl _
  | cons x t ih =>
    intro h
    have hstep : h.confidence ≤ (keepHigher h x).confidence := by
      unfold keepHigher
      by_cases hc : h.confidence < x.confidence
      · rw [if_pos hc]; exact le_of_lt hc
      · rw [if_neg hc]
    exact le_trans hstep (ih (keepHigher h x))

theorem foldl_keepHigher_first_max (t : List ExtractedItem) :
    ∀ h : ExtractedItem, ∃ pre post,
      h :: t = pre ++ (t.foldl keepHigher h) :: post ∧
      (∀ j ∈ pre, j.confidence < (t.foldl keepHigher h).confidence) ∧
      (∀ j ∈ post, j.confidence ≤ (t.foldl keepHigher h).confidence) := by
  induction t with
  | nil =>
    intro h
    exact ⟨[], [], rfl, by simp, by simp⟩
  | cons x t ih =>
    intro h
    by_cases hc : h.confidence < x.confidence
    · have hk : keepHigher h x = x := if_pos hc
      obtain ⟨pre, post, heq, hpre, hpost⟩ := ih x
      refine ⟨h :: pre, post, ?_, ?_, ?_⟩
      · simp only [List.foldl_cons, hk, List.cons_append]
        rw [heq]
      · intro j hj
        simp only [List.foldl_cons, hk]
        rcases List.mem_cons.1 hj with rfl | hj
        · exact lt_of_lt_of_le hc (confidence_le_foldl_keepHigher t x)
        · exact hpre j hj
      · intro j hj
        simp only [List.foldl_cons, hk]
        exact hpost j hj
    · have hk : keepHigher h x = h := if_neg hc
      have hxh : x.confidence ≤ h.confidence := not_lt.1 hc
      obtain ⟨pre, post, heq, hpre, hpost⟩ := ih h
      cases pre with
      | nil =>
        rw [List.nil_append] at heq
        obtain ⟨hb, ht⟩ := List.cons.inj heq
        refine ⟨[], x :: post, ?_, by simp, ?_⟩
        · simp only [List.foldl_cons, hk, List.nil_append]
          rw [← hb, ← ht]
        · intro j hj
          simp only [List.foldl_cons, hk]
          rcases List.mem_cons.1 hj with rfl | hj
          · exact le_trans hxh (le_of_eq (congrArg ExtractedItem.confidence hb))
          · exact hpost j hj
      | cons p pre' =>
        rw [List.cons_append] at heq
        obtain ⟨hp, ht⟩ := List.cons.inj heq
        have hph : p.confidence < (t.foldl keepHigher h).confidence :=
          hpre p (List.mem_cons_self p pre')
        rw [← hp] at hph
        refine ⟨h :: x :: pre', post, ?_, ?_, ?_⟩
        · simp only [List.foldl_cons, hk, List.cons_append]
          rw [← ht]
        · intro j hj
          simp only [List.foldl_cons, hk]
          rcases List.mem_cons.1 hj with rfl | hj
          · exact hph
          · rcases List.mem_cons.1 hj with rfl | hj
            · exact lt_of_le_of_lt hxh hph
            · exact hpre j (List.mem_cons_of_mem p hj)
        · intro j hj
          simp only [List.foldl_cons, hk]
          exact hpost j hj

theorem foldl_conf_append (t : List DbItem) :
    ∀ acc : List ℚ, t.foldl (fun cs i => cs ++ [i.confidence]) acc =
      acc ++ t.map (fun i => i.confidence) := by
  induction t with
  | nil => intro acc; simp
  | cons i t ih => intro acc; rw [List.foldl_cons, ih]; simp

theorem groupVal_confs (g : List DbItem) (hg : g ≠ []) :
    groupVal (fun cs i => cs ++ [i.confidence]) (fun i => [i.confidence]) g =
      g.map (fun i => i.confidence) := by
  obtain ⟨h, t, rfl⟩ := List.exists_cons_of_ne_nil hg
  simp [groupVal, foldl_conf_append]

/-- Characterization of `_find_low_confidence_pages`: it returns a nonempty
page list exactly when some page's items (over all completed passes)
average below the threshold. -/
theorem find_low_iff (store : List PassRec) :
    find_low_confidence_pages store ≠ [] ↔
      ∃ page : Int, completedConfs store page ≠ [] ∧
        (completedConfs store page).sum / (completedConfs store page).length <
          low_confidence_threshold := by
  unfold find_low_confidence_pages
  simp only [dictFold_eq]
  set items := ((store.filter (fun p => p.status = PassStatus.completed)).flatMap
      (fun p => p.items)) with hitems
  constructor
  · intro hne
    rw [Ne, List.map_eq_nil_iff, List.filter_eq_nil_iff] at hne
    push_neg at hne
    obtain ⟨e, he, hcond⟩ := hne
    simp only [decide_eq_true_eq] at hcond
    obtain ⟨page, hpage, rfl⟩ := List.mem_map.1 he
    have hgne : items.filter (fun a => a.page = page) ≠ [] :=
      filter_key_ne_nil (fun i : DbItem => i.page) items page
        ((mem_firstKeys _ _).1 hpage)
    have hcc : completedConfs store page =
        (items.filter (fun a => a.page = page)).map (fun i => i.confidence) := rfl
    refine ⟨page, ?_, ?_⟩
    · rw [hcc]
      simpa using hgne
    · rw [hcc, ← groupVal_confs _ hgne]
      exact hcond
  · rintro ⟨page, hne, hlt⟩
    have hcc : completedConfs store page =
        (items.filter (fun a => a.page = page)).map (fun i => i.confidence) := rfl
    rw [hcc] at hne hlt
    have hgne : items.filter (fun a => a.page = page) ≠ [] := by
      intro h
      rw [h] at hne
      exact hne rfl
    have hpmem : page ∈ items.map (fun i => i.page) := by
      rcases List.exists_cons_of_ne_nil hgne with ⟨i, t, hit⟩
      have hi : i ∈ items.filter (fun a => a.page = page) := by
        rw [hit]; exact List.mem_cons_self i t
      have himem := List.mem_of_mem_filter hi
      have hip : i.page = page := by
        have := List.of_mem_filter hi
        simpa using this
      exact hip ▸ List.mem_map_of_mem (fun i => i.page) himem
    rw [Ne, List.map_eq_nil_iff, List.filter_eq_nil_iff]
    push_neg
    refine ⟨(page, groupVal (fun cs i => cs ++ [i.confidence])
        (fun i => [i.confidence]) (items.filter (fun a => a.page = page))), ?_, ?_⟩
    · exact List.mem_map_of_mem _ ((mem_firstKeys _ _).2 hpmem)
    · simp only [decide_eq_true_eq]
      rw [groupVal_confs _ hgne]
      exact hlt

theorem getLastD_append_singleton {α : Type} (l : List α) (x : α) :
    ∀ d, (l ++ [x]).getLastD d = x := by
  induction l with
  | nil => intro d; rfl
  | cons a l ih =>
    intro d
    rw [List.cons_append, List.getLastD_cons]
    exact ih a

theorem getLastD_irrel {α : Type} (l : List α) (h : l ≠ []) (d1 d2 : α) :
    l.getLastD d1 = l.getLastD d2 := by
  cases l with
  | nil => exact absurd rfl h
  | cons a t => rfl

theorem getLastD_of_getLast? {α : Type} (l : List α) (x d : α)
    (h : l.getLast? = some x) : l.getLastD d = x := by
  induction l generalizing d with
  | nil => exact Option.noConfusion h
  | cons a t ih =>
    cases t with
    | nil =>
      simp only [List.getLast?_singleton, Option.some.injEq] at h
      rw [List.getLastD_cons, h]
      rfl
    | cons b t2 =>
      rw [List.getLastD_cons]
      refine ih a ?_
      rw [← h, List.getLast?_cons_cons]

theorem headD_of_head? {α : Type} (l : List α) (x d : α)
    (h : l.head? = some x) : l.headD d = x := by
  cases l with
  | nil => exact Option.noConfusion h
  | cons a t =>
    simp only [List.head?_cons, Option.some.injEq] at h
    rw [h]
    rfl

/-- The row objects built by `_build_rows_from_positions` are
`_create_row_from_lines` applied to the row groups of the walk, with row
numbers counting up from the given start. -/
theorem build_rows_walk_link (rest : List OCRLine) :
    ∀ (cur : List OCRLine) (prev : OCRLine) (n : Nat),
      build_rows_walk n cur prev rest =
        ((row_groups_walk cur prev rest).enumFrom n).map
          (fun p => create_row_from_lines p.2 p.1) := by
  induction rest with
  | nil =>
    intro cur prev n
    simp [build_rows_walk, row_groups_walk, List.enumFrom]
  | cons line rest ih =>
    intro cur prev n
    unfold build_rows_walk row_groups_walk
    by_cases hgap : |line.bbox.y - prev.bbox.y| < 15
    · rw [if_pos hgap, if_pos hgap, ih]
    · rw [if_neg hgap, if_neg hgap, ih]
      simp [List.enumFrom]

/-- Invariant proof for the accumulation walk: it partitions its input into
nonempty runs, with sub-threshold gaps inside every run and a gap at or
above the threshold at every run boundary. -/
theorem row_groups_walk_spec (rest : List OCRLine) :
    ∀ (cur : List OCRLine) (prev : OCRLine),
      cur ≠ [] → cur.getLastD prev = prev → List.Chain' same_row_gap cur →
      (row_groups_walk cur prev rest).flatten = cur ++ rest ∧
      (∀ g ∈ row_groups_walk cur prev rest, g ≠ []) ∧
      (∀ g ∈ row_groups_walk cur prev rest, List.Chain' same_row_gap g) ∧
      List.Chain' (fun g1 g2 =>
          ∀ d : OCRLine, ¬ same_row_gap (g1.getLastD d) (g2.headD d))
        (row_groups_walk cur prev rest) ∧
      (∀ d : OCRLine,
        ((row_groups_walk cur prev rest).headD []).headD d = cur.headD d) := by
  induction rest with
  | nil =>
    intro cur prev hne hlast hchain
    refine ⟨by simp [row_groups_walk], ?_, ?_, ?_, ?_⟩
    · intro g hg
      rw [row_groups_walk] at hg
      rcases List.mem_singleton.1 hg with rfl
      exact hne
    · intro g hg
      rw [row_groups_walk] at hg
      rcases List.mem_singleton.1 hg with rfl
      exact hchain
    · rw [row_groups_walk]
      exact List.chain'_singleton _
    · intro d
      rfl
  | cons line rest ih =>
    intro cur prev hne hlast hchain
    unfold row_groups_walk
    by_cases hgap : |line.bbox.y - prev.bbox.y| < 15
    · rw [if_pos hgap]
      have hne2 : cur ++ [line] ≠ [] := by simp
      have hlast2 : (cur ++ [line]).getLastD line = line :=
        getLastD_append_singleton cur line line
      have hchain2 : List.Chain' same_row_gap (cur ++ [line]) := by
        rw [List.chain'_append]
        refine ⟨hchain, List.chain'_singleton _, ?_⟩
        intro x hx y hy
        have hx2 : x = prev := by
          have h1 : cur.getLastD prev = x :=
            getLastD_of_getLast? cur x prev hx
          rw [← h1, hlast]
        have hy2 : y = line := by symm; simpa using hy
        rw [hx2, hy2]
        exact hgap
      obtain ⟨hflat, hgne, hgch, hbch, hhead⟩ :=
        ih (cur ++ [line]) line hne2 hlast2 hchain2
      refine ⟨?_, hgne, hgch, hbch, ?_⟩
      · rw [hflat]; simp
      · intro d
        rw [hhead d]
        obtain ⟨c0, cs, rfl⟩ := List.exists_cons_of_ne_nil hne
        rfl
    · rw [if_neg hgap]
      obtain ⟨hflat, hgne, hgch, hbch, hhead⟩ :=
        ih [line] line (by simp) rfl (List.chain'_singleton _)
      refine ⟨?_, ?_, ?_, ?_, ?_⟩
      · simp only [List.flatten_cons, hflat]
        simp
      · intro g hg
        rcases List.mem_cons.1 hg with rfl | hg
        · exact hne
        · exact hgne g hg
      · intro g hg
        rcases List.mem_cons.1 hg with rfl | hg
        · exact hchain
        · exact hgch g hg
      · rw [List.chain'_cons']
        constructor
        · intro g2 hg2 d
          have hg2d : (row_groups_walk [line] line rest).headD [] = g2 :=
            headD_of_head? _ g2 [] hg2
          have hh := hhead d
          rw [hg2d] at hh
          have hcl : cur.getLastD d = prev := by
            rw [getLastD_irrel cur hne d prev, hlast]
          rw [hcl, hh]
          show ¬ |line.bbox.y - prev.bbox.y| < 15
          exact hgap
        · exact hbch
      · intro d
        obtain ⟨c0, cs, rfl⟩ := List.exists_cons_of_ne_nil hne
        rfl

theorem extract_prices_dollar2999 : extract_prices "$29.99" = [29.99] := by
  have hstr : extract_pattern pricePats "$29.99" = ["29.99"] := by decide
  have hsc : stripCommas "29.99" = String.mk (['2', '9'] ++ '.' :: ['9', '9']) := by decide
  have hdv1 : digitsVal ['2', '9'] = 29 := by decide
  have hdv2 : digitsVal ['9', '9'] = 99 := by decide
  unfold extract_prices
  rw [hstr]
  simp only [List.filterMap_cons, List.filterMap_nil, hsc,
    parsePyFloat_int_frac ['2', '9'] ['9', '9'] (by decide) (by decide) (by decide),
    hdv1, hdv2]
  norm_num

/-! ## Claim theorems -/

/-- C10: when a row or line contains at least one accepted price but no
price-type keyword matches, every emitted item carries the literal price
type "retail"; conversely, when part numbers are found but no price is
accepted, every emitted item carries a null price type even if a price-type
keyword did match. -/
theorem price_type_default_policy :
    (∀ (row : TableRow) (page_num : Int),
      (extract_prices (String.intercalate " " (row.cells.map (fun c => c.text))) ≠ [] →
        extract_pattern priceTypePats
          (String.intercalate " " (row.cells.map (fun c => c.text))) = [] →
        ∀ it ∈ extract_from_row row page_num, it.price_type = some "retail") ∧
      (extract_pattern partPats
          (String.intercalate " " (row.cells.map (fun c => c.text))) ≠ [] →
        extract_prices (String.intercalate " " (row.cells.map (fun c => c.text))) = [] →
        ∀ it ∈ extract_from_row row page_num, it.price_type = none)) ∧
    (∀ (line : String) (page_num : Int) (words : Option (List OCRWord)),
      (extract_prices line ≠ [] →
        extract_pattern priceTypePats line = [] →
        ∀ it ∈ extract_from_text_line line page_num words,
          it.price_type = some "retail") ∧
      (extract_pattern partPats line ≠ [] →
        extract_prices line = [] →
        ∀ it ∈ extract_from_text_line line page_num words, it.price_type = none)) := by
  constructor
  · intro row page_num
    constructor
    · intro hpr hpt it hit
      simp only [extract_from_row] at hit
      rw [if_neg (fun h => hpr h.2)] at hit
      by_cases hpn : extract_pattern partPats
          (String.intercalate " " (row.cells.map (fun c => c.text))) = []
      · rw [if_neg (fun h => h.1 hpn), if_neg (not_not_intro hpn)] at hit
        simp only [hpt, List.head?_nil, Option.getD_none] at hit
        rw [List.mem_map] at hit
        obtain ⟨v, hv, rfl⟩ := hit
        rfl
      · rw [if_pos ⟨hpn, hpr⟩] at hit
        simp only [hpt, List.head?_nil, Option.getD_none] at hit
        rw [List.mem_flatMap] at hit
        obtain ⟨pn, hpn2, hit2⟩ := hit
        rw [List.mem_map] at hit2
        obtain ⟨v, hv, rfl⟩ := hit2
        rfl
    · intro hpn hpr it hit
      simp only [extract_from_row] at hit
      rw [if_neg (fun h => hpn h.1), if_neg (fun h => h.2 hpr), if_pos hpn] at hit
      rw [List.mem_map] at hit
      obtain ⟨pn, hpn2, rfl⟩ := hit
      rfl
  · intro line page_num words
    constructor
    · intro hpr hpt it hit
      simp only [extract_from_text_line] at hit
      rw [if_neg (fun h => hpr h.2)] at hit
      by_cases hpn : extract_pattern partPats line = []
      · rw [if_neg (fun h => h.1 hpn), if_neg (not_not_intro hpn)] at hit
        simp only [hpt, List.head?_nil, Option.getD_none] at hit
        rw [List.mem_map] at hit
        obtain ⟨v, hv, rfl⟩ := hit
        rfl
      · rw [if_pos ⟨hpn, hpr⟩] at hit
        simp only [hpt, List.head?_nil, Option.getD_none] at hit
        rw [List.mem_flatMap] at hit
        obtain ⟨pn, hpn2, hit2⟩ := hit
        rw [List.mem_map] at hit2
        obtain ⟨v, hv, rfl⟩ := hit2
        rfl
    · intro hpn hpr it hit
      simp only [extract_from_text_line] at hit
      rw [if_neg (fun h => hpn h.1), if_neg (fun h => h.2 hpr), if_pos hpn] at hit
      rw [List.mem_map] at hit
      obtain ⟨pn, hpn2, rfl⟩ := hit
      rfl

/-- C10 (witness): on the row "$29.99" (price, no keyword) the single
emitted item has price type "retail", and on the row "retail SUM-715030"
(part number and keyword, no accepted price) the single emitted item has a
null price type. -/
theorem price_type_default_policy_witness :
    (⟨none, none, some "retail", some 29.99, "USD", 0, 90, "$29.99",
        some (0, 0, 5, 5)⟩ : ExtractedItem).price_type = some "retail" ∧
    (⟨some "SUM", some "SUM-715030", none, none, "USD", 0, 90, "retail SUM-715030",
        some (0, 0, 5, 5)⟩ : ExtractedItem).price_type = none := by
  have hrt : String.intercalate " " (demoRowPrice.cells.map (fun c => c.text)) =
      "$29.99" := by decide
  have hrt2 : String.intercalate " " (demoRowPart.cells.map (fun c => c.text)) =
      "retail SUM-715030" := by decide
  have hlist1 : extract_from_row demoRowPrice 0 =
      [⟨none, none, some "retail", some 29.99, "USD", 0, 90, "$29.99",
        some (0, 0, 5, 5)⟩] := by
    simp only [extract_from_row, hrt, extract_prices_dollar2999]
    have hpn : extract_pattern partPats "$29.99" = [] := by decide
    have hpt : extract_pattern priceTypePats "$29.99" = [] := by decide
    have hbr : extract_pattern brandPats "$29.99" = [] := by decide
    rw [hpn, hpt, hbr]
    simp [demoRowPrice, demoCell]
  have hlist2 : extract_from_row demoRowPart 0 =
      [⟨some "SUM", some "SUM-715030", none, none, "USD", 0, 90,
        "retail SUM-715030", some (0, 0, 5, 5)⟩] := by decide
  constructor
  · refine (price_type_default_policy.1 demoRowPrice 0).1 ?_ ?_ _ ?_
    · rw [hrt, extract_prices_dollar2999]
      simp
    · rw [hrt]
      decide
    · rw [hlist1]
      exact List.mem_singleton.2 rfl
  · refine (price_type_default_policy.1 demoRowPart 0).2 ?_ ?_ _ ?_
    · rw [hrt2]
      decide
    · rw [hrt2]
      decide
    · rw [hlist2]
      exact List.mem_singleton.2 rfl

/-- C7: position-based row building walks the lines sorted by vertical
position: the rows are the walk's groups in order (numbered from 0); the
groups partition the sorted lines into nonempty runs whose internal
consecutive gaps are all under 15 pixels while the gap at every boundary
between consecutive rows is at least 15 pixels; an empty line list yields
zero rows; and the specification's example — lines at y = 10, 12, 30, 32 —
produces exactly the rows {10, 12} and {30, 32}. -/
theorem build_rows_from_positions_spec :
    build_rows_from_positions [] = [] ∧
    (∀ lines : List OCRLine,
      build_rows_from_positions lines =
        ((row_groups lines).enumFrom 0).map
          (fun p => create_row_from_lines p.2 p.1)) ∧
    (∀ (h : OCRLine) (t : List OCRLine),
      (row_groups_walk [h] h t).flatten = h :: t ∧
      (∀ g ∈ row_groups_walk [h] h t, g ≠ []) ∧
      (∀ g ∈ row_groups_walk [h] h t, List.Chain' same_row_gap g) ∧
      List.Chain' (fun g1 g2 =>
          ∀ d : OCRLine, ¬ same_row_gap (g1.getLastD d) (g2.headD d))
        (row_groups_walk [h] h t)) ∧
    (build_rows_from_positions demoLines).map
        (fun r => r.cells.map (fun c => c.bbox.y)) = [[10, 12], [30, 32]] := by
  refine ⟨rfl, ?_, ?_, by decide⟩
  · intro lines
    unfold build_rows_from_positions row_groups
    cases hs : sortLinesByY lines with
    | nil => simp [List.enumFrom]
    | cons h t => exact build_rows_walk_link t [h] h 0
  · intro h t
    obtain ⟨h1, h2, h3, h4, _⟩ :=
      row_groups_walk_spec t [h] h (by simp) rfl (List.chain'_singleton _)
    exact ⟨h1, h2, h3, h4⟩

theorem run_pass_loop_eq (page_results : List (List ExtractedItem)) :
    ∀ acc : List DbItem × List ExtractedItem,
      page_results.foldl
        (fun (acc : List DbItem × List ExtractedItem) items =>
          (acc.1 ++ items.map toDbItem, acc.2 ++ items)) acc =
      (acc.1 ++ page_results.flatten.map toDbItem, acc.2 ++ page_results.flatten) := by
  induction page_results with
  | nil => intro acc; simp
  | cons page rest ih =>
    intro acc
    rw [List.foldl_cons, ih]
    simp

/-- C2 (counterexample): two items that both have a null part number and sit
on the same page are deduplicated against each other — the Python dict key
`(None, page)` collides — so the lower-confidence one is dropped, not
preserved as the claim states. -/
theorem deduplicate_null_part_collides :
    deduplicate_items
        [⟨none, none, none, none, "USD", 1, 70, "a", none⟩,
         ⟨none, none, none, none, "USD", 1, 85, "b", none⟩] =
      [⟨none, none, none, none, "USD", 1, 85, "b", none⟩] ∧
    (⟨none, none, none, none, "USD", 1, 70, "a", none⟩ : ExtractedItem) ∉
      deduplicate_items
        [⟨none, none, none, none, "USD", 1, 70, "a", none⟩,
         ⟨none, none, none, none, "USD", 1, 85, "b", none⟩] := by
  decide

/-- C2 (amended): `deduplicate_items` groups every item — null part numbers
included, keyed as `(None, page)` — by `(part_number, page)` and returns,
per distinct key in first-seen order, the fold that keeps the
highest-confidence item; and that fold indeed returns the first encountered
item of maximal confidence: the kept item splits its group into a strictly
lower-confidence prefix and a no-higher-confidence suffix. -/
theorem deduplicate_items_keeps_first_max :
    (∀ items : List ExtractedItem,
      deduplicate_items items =
        (firstKeys (items.map dedupKey)).map
          (fun k => groupVal keepHigher id
            (items.filter (fun i => dedupKey i = k)))) ∧
    (∀ (h : ExtractedItem) (t : List ExtractedItem),
      ∃ pre post,
        h :: t = pre ++ groupVal keepHigher id (h :: t) :: post ∧
        (∀ j ∈ pre, j.confidence < (groupVal keepHigher id (h :: t)).confidence) ∧
        (∀ j ∈ post, j.confidence ≤ (groupVal keepHigher id (h :: t)).confidence)) := by
  constructor
  · intro items
    unfold deduplicate_items
    rw [dictFold_eq, List.map_map]
    rfl
  · intro h t
    have hgv : groupVal keepHigher id (h :: t) = t.foldl keepHigher h := rfl
    rw [hgv]
    exact foldl_keepHigher_first_max t h

/-- C6: price extraction parses each matched price string by removing
thousands separators and float-converting it, and a parsed value is
accepted if and only if it lies in `[0.01, 1000000]`; concretely,
"$1,234.56" yields exactly `[1234.56]`, "29.99" yields `[29.99]`, and
"$0.001" (whose patterns match only "0.00") yields no accepted price. -/
theorem extract_prices_accept_iff_range :
    (∀ (text : String) (v : ℚ),
      v ∈ extract_prices text ↔
        ∃ s ∈ extract_pattern pricePats text,
          parsePyFloat (stripCommas s) = some v ∧ 1/100 ≤ v ∧ v ≤ 1000000) ∧
    extract_prices "$1,234.56" = [1234.56] ∧
    extract_prices "29.99" = [29.99] ∧
    extract_prices "$0.001" = [] := by
  refine ⟨?_, ?_, ?_, ?_⟩
  · intro text v
    simp only [extract_prices, List.mem_filterMap]
    constructor
    · rintro ⟨s, hs, hv⟩
      refine ⟨s, hs, ?_⟩
      rcases hp : parsePyFloat (stripCommas s) with _ | w
      · rw [hp] at hv
        exact Option.noConfusion hv
      · rw [hp] at hv
        have hv2 : (if 1/100 ≤ w ∧ w ≤ 1000000 then some w else none) = some v := hv
        by_cases hr : 1/100 ≤ w ∧ w ≤ 1000000
        · rw [if_pos hr] at hv2
          have hwv := Option.some.inj hv2
          subst hwv
          exact ⟨rfl, hr⟩
        · rw [if_neg hr] at hv2
          exact Option.noConfusion hv2
    · rintro ⟨s, hs, hp, hr1, hr2⟩
      refine ⟨s, hs, ?_⟩
      rw [hp]
      show (if 1/100 ≤ v ∧ v ≤ 1000000 then some v else none) = some v
      rw [if_pos ⟨hr1, hr2⟩]
  · have hstr : extract_pattern pricePats "$1,234.56" = ["1,234.56"] := by decide
    have hsc : stripCommas "1,234.56" =
        String.mk (['1', '2', '3', '4'] ++ '.' :: ['5', '6']) := by decide
    have hdv1 : digitsVal ['1', '2', '3', '4'] = 1234 := by decide
    have hdv2 : digitsVal ['5', '6'] = 56 := by decide
    unfold extract_prices
    rw [hstr]
    simp only [List.filterMap_cons, List.filterMap_nil, hsc,
      parsePyFloat_int_frac ['1', '2', '3', '4'] ['5', '6']
        (by decide) (by decide) (by decide),
      hdv1, hdv2]
    norm_num
  · have hstr : extract_pattern pricePats "29.99" = ["29.99"] := by decide
    have hsc : stripCommas "29.99" = String.mk (['2', '9'] ++ '.' :: ['9', '9']) := by
      decide
    have hdv1 : digitsVal ['2', '9'] = 29 := by decide
    have hdv2 : digitsVal ['9', '9'] = 99 := by decide
    unfold extract_prices
    rw [hstr]
    simp only [List.filterMap_cons, List.filterMap_nil, hsc,
      parsePyFloat_int_frac ['2', '9'] ['9', '9'] (by decide) (by decide) (by decide),
      hdv1, hdv2]
    norm_num
  · have hstr : extract_pattern pricePats "$0.001" = ["0.00"] := by decide
    have hsc : stripCommas "0.00" = String.mk (['0'] ++ '.' :: ['0', '0']) := by decide
    have hdv1 : digitsVal ['0'] = 0 := by decide
    have hdv2 : digitsVal ['0', '0'] = 0 := by decide
    unfold extract_prices
    rw [hstr]
    simp only [List.filterMap_cons, List.filterMap_nil, hsc,
      parsePyFloat_int_frac ['0'] ['0', '0'] (by decide) (by decide) (by decide),
      hdv1, hdv2]
    norm_num

/-- C1 (counterexample): a pass whose strategy returns two items with the
same non-null part number on the same page persists both rows: the store
loop of `_run_pass` writes every extracted item before validation and
deduplication run, so the persisted rows are not the deduplicated set and
the per-(part number, page) uniqueness invariant fails for them. -/
theorem run_pass_persists_duplicate_keys :
    (run_pass 50
        [[⟨none, some "AB-1234", none, none, "USD", 1, 80, "a", none⟩,
          ⟨none, some "AB-1234", none, none, "USD", 1, 90, "b", none⟩]]).persisted =
      [⟨none, some "AB-1234", none, none, "USD", 1, 80, "a", none⟩,
       ⟨none, some "AB-1234", none, none, "USD", 1, 90, "b", none⟩] ∧
    ¬ (run_pass 50
        [[⟨none, some "AB-1234", none, none, "USD", 1, 80, "a", none⟩,
          ⟨none, some "AB-1234", none, none, "USD", 1, 90, "b", none⟩]]).persisted.Pairwise
        (fun a b => a.part_number ≠ none →
          ¬(a.part_number = b.part_number ∧ a.page = b.page)) := by
  decide

/-- C1 (amended): `_run_pass` persists every extracted item — the persisted
rows are exactly the concatenation of the per-page extraction results,
duplicates included — and the deduplicated set of validated items determines
only the pass statistics: `items_extracted` is its length and
`avg_confidence` its mean confidence. -/
theorem run_pass_persists_all_items (min_confidence : ℚ)
    (page_results : List (List ExtractedItem)) :
    (run_pass min_confidence page_results).persisted =
      page_results.flatten.map toDbItem ∧
    (run_pass min_confidence page_results).items_extracted =
      (deduplicate_items
        (validate_items min_confidence page_results.flatten)).length := by
  unfold run_pass
  rw [run_pass_loop_eq page_results ([], [])]
  simp

/-- C4: consolidation is idempotent.  Running `consolidate_document_items`
twice in a row on any document state, with no store change in between,
yields the same state (in particular the same consolidated rows): each run
fully replaces the consolidated rows with a function of the completed
passes' items alone, which consolidation never modifies. -/
theorem consolidate_document_items_idempotent (st : DocState) :
    consolidate_document_items (consolidate_document_items st) =
      consolidate_document_items st := by
  by_cases h : st.passes.filter (fun p => p.status = PassStatus.completed) = [] <;>
    simp [consolidate_document_items, h]

set_option maxHeartbeats 1000000 in
/-- C5: the part-number structural sub-score equals the specification's
closed formula (base 50, length, letter/digit mix, separator and
special-character adjustments, clamped to [0,100]), and the score of
"SUM-715030" is exactly 100. -/
theorem validate_part_number_spec_form :
    (∀ pn : String, validate_part_number pn = part_number_score_spec pn) ∧
      validate_part_number "SUM-715030" = 100 := by
  constructor
  · intro pn
    unfold validate_part_number part_number_score_spec
    by_cases h1 : 5 ≤ pn.length ∧ pn.length ≤ 15 <;>
    by_cases h2 : 15 < pn.length <;>
    by_cases h0 : (pn.toList.any Char.isAlpha) = true <;>
    by_cases h4 : (pn.toList.any Char.isDigit) = true <;>
    by_cases h5 : (pn.toList.contains '-' || pn.toList.contains ' ') = true <;>
    by_cases h6 : 2 < (pn.toList.filter
        (fun c => !(c.isAlpha || c.isDigit || c == '-' || isPySpace c))).length <;>
    simp only [h1, h2, h0, h4, h5, h6, Bool.true_and, Bool.false_and, if_true,
      if_false, ite_true, ite_false, eq_self_iff_true, not_true, not_false_iff,
      Bool.not_eq_true] <;>
    norm_num
  · have h1 : (5 ≤ "SUM-715030".length ∧ "SUM-715030".length ≤ 15) := by decide
    have h0 : ("SUM-715030".toList.any Char.isAlpha &&
        "SUM-715030".toList.any Char.isDigit) = true := by decide
    have h5 : ("SUM-715030".toList.contains '-' ||
        "SUM-715030".toList.contains ' ') = true := by decide
    have h6 : ¬ 2 < ("SUM-715030".toList.filter
        (fun c => !(c.isAlpha || c.isDigit || c == '-' || isPySpace c))).length := by decide
    simp only [validate_part_number, h1, h0, h5, if_true, ite_true, if_pos, if_neg h6]
    norm_num

/-- C9 (counterexample): with a caller dpi of 600, pass 2 of the auto
multi-pass run renders at `max(400, 400) = 400` dpi — the controller
overwrites the options dpi with 400 before `OCRAggressiveStrategy.extract`
applies its `max(dpi, 400)` floor — whereas the claimed resolution
`max(600, 400)` is 600. -/
theorem pass2_render_dpi_counterexample :
    ((process_auto_multi_pass 600 (fun _ => Except.ok 1) []).attempts.find?
        (fun c => c.pass_number == 2)).map
        (fun c => ocr_aggressive_render_dpi c.dpi) = some 400 ∧
      (400 : Nat) ≠ max 600 400 := by
  decide

/-- C9 (amended): for every caller-supplied dpi, the pass-2 `_run_pass`
invocation carries dpi 400 (the controller overwrites the caller's value),
and hence `OCRAggressiveStrategy.extract` renders pass-2 pages at exactly
400 dpi, regardless of the caller's value. -/
theorem pass2_render_dpi_is_400 (dpi : Nat)
    (run_result : PassAttempt → Except String Nat) (store : List PassRec)
    (c : PassAttempt)
    (hc : c ∈ (process_auto_multi_pass dpi run_result store).attempts)
    (h2 : c.pass_number = 2) :
    c.dpi = 400 ∧ ocr_aggressive_render_dpi c.dpi = 400 := by
  have hdpi : c.dpi = 400 := by
    rcases hr1 : run_result (pass1_attempt dpi) with e | i <;>
      simp only [process_auto_multi_pass, hr1] at hc
    · simp at hc
      rw [hc] at h2
      simp [pass1_attempt] at h2
    · rcases hr2 : run_result pass2_attempt with e2 | i2 <;>
        simp only [hr2] at hc
      · simp at hc
        rcases hc with hc | hc <;>
          (rw [hc] at h2 ⊢) <;>
          simp_all [pass1_attempt, pass2_attempt]
      · by_cases h3 : find_low_confidence_pages store ≠ [] <;>
          simp only [if_pos h3, if_neg h3] at hc
        · rcases hr3 : run_result (pass3_attempt (find_low_confidence_pages store))
              with e3 | i3 <;>
            simp only [hr3] at hc <;>
            simp at hc <;>
            rcases hc with hc | hc | hc <;>
            (rw [hc] at h2 ⊢) <;>
            simp_all [pass1_attempt, pass2_attempt, pass3_attempt]
        · simp at hc
          rcases hc with hc | hc <;>
            (rw [hc] at h2 ⊢) <;>
            simp_all [pass1_attempt, pass2_attempt]
  exact ⟨hdpi, by rw [hdpi]; rfl⟩

/-- C9 (witness): the amended theorem applied to a concrete run with caller
dpi 600. -/
theorem pass2_render_dpi_is_400_witness :
    pass2_attempt.dpi = 400 ∧ ocr_aggressive_render_dpi pass2_attempt.dpi = 400 :=
  pass2_render_dpi_is_400 600 (fun _ => Except.ok 1) [] pass2_attempt
    (by decide) (by decide)

/-- C3 (counterexample): in a run whose pass 1 fails, the controller
propagates the error, the only `_run_pass` invocation made is pass 1, and
pass 2 is never attempted. -/
theorem pass1_failure_aborts_run :
    (process_auto_multi_pass 300
        (fun c => if c.pass_number == 1 then Except.error "boom" else Except.ok 7)
        []).error = some "boom" ∧
      (process_auto_multi_pass 300
        (fun c => if c.pass_number == 1 then Except.error "boom" else Except.ok 7)
        []).attempts = [pass1_attempt 300] ∧
      ¬ ∃ c ∈ (process_auto_multi_pass 300
        (fun c => if c.pass_number == 1 then Except.error "boom" else Except.ok 7)
        []).attempts, c.pass_number = 2 := by
  decide

/-- C3 (amended): a pass-1 failure is re-raised by the controller, so the
error propagates to the caller and no further `_run_pass` invocation is
made.  When pass 1 succeeds, pass 2 is always attempted; a pass-2 failure,
however, also aborts the run — the swallowed exception leaves `pass2_id`
unassigned and the controller crashes with an `UnboundLocalError` on the
pass-2 statistics line — so pass 3 is never attempted after a pass-2
failure either. -/
theorem multi_pass_failure_policy (dpi : Nat)
    (run_result : PassAttempt → Except String Nat) (store : List PassRec) :
    (∀ e, run_result (pass1_attempt dpi) = Except.error e →
      process_auto_multi_pass dpi run_result store =
        ⟨[], [pass1_attempt dpi], some e⟩) ∧
    (∀ i, run_result (pass1_attempt dpi) = Except.ok i →
      pass2_attempt ∈ (process_auto_multi_pass dpi run_result store).attempts) ∧
    (∀ i e, run_result (pass1_attempt dpi) = Except.ok i →
      run_result pass2_attempt = Except.error e →
      process_auto_multi_pass dpi run_result store =
        ⟨[i], [pass1_attempt dpi, pass2_attempt], some pass2UnboundLocalError⟩) := by
  refine ⟨?_, ?_, ?_⟩
  · intro e h
    simp [process_auto_multi_pass, h]
  · intro i h
    simp only [process_auto_multi_pass, h]
    rcases hr2 : run_result pass2_attempt with e2 | i2 <;>
      simp only [hr2]
    · simp
    · by_cases h3 : find_low_confidence_pages store ≠ [] <;>
        simp only [if_pos h3, if_neg h3] <;>
        rcases hr3 : run_result (pass3_attempt (find_low_confidence_pages store))
          with e3 | i3 <;>
        simp [hr3]
  · intro i e h1 h2
    simp [process_auto_multi_pass, h1, h2]

/-- C3 (witness): the amended theorem applied to three concrete runs — one
whose pass 1 fails, one whose passes all succeed, and one whose pass 2
fails. -/
theorem multi_pass_failure_policy_witness :
    process_auto_multi_pass 300
        (fun c => if c.pass_number == 1 then Except.error "e1" else Except.ok 5) [] =
      ⟨[], [pass1_attempt 300], some "e1"⟩ ∧
    pass2_attempt ∈ (process_auto_multi_pass 300 (fun _ => Except.ok 5) []).attempts ∧
    process_auto_multi_pass 300
        (fun c => if c.pass_number == 2 then Except.error "e2" else Except.ok 5) [] =
      ⟨[5], [pass1_attempt 300, pass2_attempt], some pass2UnboundLocalError⟩ :=
  ⟨(multi_pass_failure_policy 300
      (fun c => if c.pass_number == 1 then Except.error "e1" else Except.ok 5) []).1
      "e1" rfl,
   (multi_pass_failure_policy 300 (fun _ => Except.ok 5) []).2.1 5 rfl,
   (multi_pass_failure_policy 300
      (fun c => if c.pass_number == 2 then Except.error "e2" else Except.ok 5) []).2.2
      5 "e2" rfl rfl⟩

/-- C8: in a run whose passes 1 and 2 both succeeded (a pass-1 failure is
re-raised and a pass-2 failure crashes the controller before the
low-confidence check, so the check is only reached in that case), pass 3 is
attempted if and only if at least one page's items (over all completed
passes in the store when the check runs) average below the low-confidence
threshold 60; and any pass-3 attempt uses the `ocr_plain` strategy at 450
dpi targeting exactly the pages `_find_low_confidence_pages` returned.  In
particular, when every page with items averages at least 60 after passes 1
and 2, pass 3 never runs. -/
theorem pass3_iff_low_confidence_pages (dpi : Nat)
    (run_result : PassAttempt → Except String Nat) (store : List PassRec)
    (i j : Nat) (h1 : run_result (pass1_attempt dpi) = Except.ok i)
    (h2 : run_result pass2_attempt = Except.ok j) :
    ((∃ c ∈ (process_auto_multi_pass dpi run_result store).attempts,
        c.pass_number = 3) ↔
      ∃ page : Int, completedConfs store page ≠ [] ∧
        (completedConfs store page).sum / (completedConfs store page).length <
          low_confidence_threshold) ∧
    (∀ c ∈ (process_auto_multi_pass dpi run_result store).attempts,
      c.pass_number = 3 →
        c.method = "ocr_plain" ∧ c.dpi = 450 ∧ c.force_ocr = true ∧
          c.target_pages = some (find_low_confidence_pages store)) := by
  rw [← find_low_iff store]
  simp only [process_auto_multi_pass, h1, h2]
  by_cases h3 : find_low_confidence_pages store ≠ [] <;>
    simp only [if_pos h3, if_neg h3] <;>
    rcases hr3 : run_result (pass3_attempt (find_low_confidence_pages store))
      with e3 | i3 <;>
    constructor <;>
    simp_all [pass1_attempt, pass2_attempt, pass3_attempt]

/-- C8 (witness): on a store whose only completed pass has a single item of
confidence 50 on page 2, a run with successful passes does attempt pass 3. -/
theorem pass3_iff_low_confidence_pages_witness :
    ∃ c ∈ (process_auto_multi_pass 300 (fun _ => Except.ok 1) lowConfStore).attempts,
      c.pass_number = 3 :=
  (pass3_iff_low_confidence_pages 300 (fun _ => Except.ok 1) lowConfStore 1 1
      rfl rfl).1.mpr
    ⟨2, by decide, by norm_num [completedConfs, lowConfStore, low_confidence_threshold]⟩

end CatalogExtract
